import Mathlib

/-!
Shallow embedding of the csark/web2epub crawler core (Go) in Lean 4.

Strings are modelled as `List Char` (one entry per rune).  The HTML tree
query capability, the HTTP crawl engine and the e-book writer are external
collaborators (spec §1); their observable answers on the one page a run
touches are supplied as fields of the input records, while every decision
the repository's own code makes (selector-hit bookkeeping, URL rewriting,
filtering, ordering, sectioning, profile resolution) is translated
function by function from `src/main.go`, `src/collectors/types.go` and
`src/collectors/page_collector.go`.
-/

/-- Literal helper: a Lean string literal viewed as the `List Char` model of
a Go string. -/
def lit (s : String) : List Char := s.data

/-- Model of Go `strings.Contains s pat`: some (possibly empty) occurrence
of `pat` as a contiguous substring of `s`.  `strings.Contains s "" = true`
for every `s`, including the empty one. -/
def containsSub (s pat : List Char) : Bool :=
  match s with
  | [] => pat.isEmpty
  | _ :: rest => pat.isPrefixOf s || containsSub rest pat

/-- Scanning loop of Go `strings.ReplaceAll` for a nonempty pattern: walk the
string left to right; on a pattern match emit the replacement and skip the
matched characters, otherwise keep one character and continue.  The `fuel`
argument encodes termination of the Go loop: every iteration consumes at
least one character of the remaining input, so starting fuel equal to the
input length is never exhausted (the fuel-zero branch is dead code for the
caller `replaceAll`). -/
def replaceLoop (pat rep : List Char) : Nat → List Char → List Char
  | _, [] => []
  | 0, s => s
  | fuel + 1, c :: rest =>
      if pat.isPrefixOf (c :: rest) then
        rep ++ replaceLoop pat rep fuel (rest.drop (pat.length - 1))
      else
        c :: replaceLoop pat rep fuel rest

/-- Model of Go `strings.ReplaceAll s pat rep`: non-overlapping leftmost
replacement of every occurrence.  With an empty pattern Go inserts the
replacement before every rune and once at the end. -/
def replaceAll (s pat rep : List Char) : List Char :=
  if pat = [] then rep ++ (s.map (fun c => c :: rep)).flatten
  else replaceLoop pat rep s.length s

/-- Model of Go `strings.ToLower` (ASCII range, which covers every string
the repository resolves). -/
def toLowerStr (s : List Char) : List Char := s.map Char.toLower

/-- Model of Go `strings.TrimSpace`: drop leading and trailing whitespace. -/
def trimSpace (s : List Char) : List Char :=
  ((s.dropWhile Char.isWhitespace).reverse.dropWhile Char.isWhitespace).reverse

-- Basic facts about the string model.

theorem containsSub_nil_pat (s : List Char) : containsSub s [] = true := by
  cases s <;> simp [containsSub, List.isPrefixOf]

theorem replaceLoop_of_not_contains (pat rep : List Char) :
    ∀ (fuel : Nat) (s : List Char), s.length ≤ fuel →
      containsSub s pat = false → replaceLoop pat rep fuel s = s := by
  intro fuel
  induction fuel with
  | zero =>
      intro s hs _
      have : s = [] := List.eq_nil_of_length_eq_zero (Nat.le_zero.mp hs)
      subst this
      rfl
  | succ n ih =>
      intro s hs hc
      cases s with
      | nil => rfl
      | cons c rest =>
          rw [containsSub] at hc
          have hpre : pat.isPrefixOf (c :: rest) = false := by
            cases h : pat.isPrefixOf (c :: rest) <;> simp [h] at hc ⊢
          have hrest : containsSub rest pat = false := by
            cases h : containsSub rest pat <;> simp [h, hpre] at hc ⊢
          have hlen : rest.length ≤ n := by
            simpa [Nat.succ_le_succ_iff] using hs
          simp [replaceLoop, hpre, ih rest hlen hrest]

/-- A string with no occurrence of the pattern is left unchanged by
`replaceAll`. -/
theorem replaceAll_of_not_contains (s pat rep : List Char)
    (h : containsSub s pat = false) : replaceAll s pat rep = s := by
  have hpat : pat ≠ [] := by
    intro hnil
    rw [hnil, containsSub_nil_pat] at h
    exact Bool.true_eq_false.mp h
  rw [replaceAll, if_neg hpat]
  exact replaceLoop_of_not_contains pat rep s.length s (Nat.le_refl _) h

/-- One link-rewrite rule, as consumed by `CollectLinks`
(src/collectors/types.go, `config.LinkReplace` loop): literal old text,
literal new text, and whether a change contributed by this rule marks the
link as a subsection. -/
structure LinkReplacement where
  OldText : List Char
  NewText : List Char
  IsSubSection : Bool
deriving DecidableEq

/-- Discovered link (src/collectors/types.go `LinkInfo`, in the revision
`CollectLinks` appends: URL, discovery order, rewrite-based subsection
flag). -/
structure LinkInfo where
  URL : List Char
  Order : Nat
  IsSubSection : Bool
deriving DecidableEq

/-- Site profile (src/collectors/types.go `CollectorConfig`).  The struct
snapshot in the file predates the `LinkReplace` field, which the current
`CollectLinks` body reads (`config.LinkReplace`); it is included here with
the field names the code uses.  `AuthorReplacements` is a Go map iterated
with `range` (unspecified order); it is modelled as an association list
applied in list order. -/
structure CollectorConfig where
  LinkSelector : List Char
  LinkFilter : List Char
  TitleSelector : List Char
  AuthorSelector : List Char
  ContentSelector : List Char
  RemoveSelectors : List (List Char)
  AuthorReplacements : List (List Char × List Char)
  DefaultAuthor : List Char
  SubSectionThreshold : Nat
  FallbackToBody : Bool
  Parallelism : Nat
  DelaySeconds : Nat
  SkipExtensions : List (List Char)
  LinkReplace : List LinkReplacement
deriving DecidableEq

/-- Profile for LDS General Conference pages
(src/collectors/types.go `GetGeneralConferenceConfig`).  `LinkFilter` is
left unset in the source, i.e. the empty string. -/
def GetGeneralConferenceConfig : CollectorConfig where
  LinkSelector := lit (r"a[href].list-tile")
  LinkFilter := []
  TitleSelector := lit (r"title")
  AuthorSelector := lit (r".author-name")
  ContentSelector := lit (r"article")
  RemoveSelectors :=
    [lit (r"script"), lit (r"footer"), lit (r"iframe"), lit (r"button"),
     lit (r".nav"), lit (r".menu"), lit (r".sidebar"), lit (r".ad"),
     lit (r".ads"), lit (r".fbfDMV")]
  AuthorReplacements :=
    [(lit (r"By"), []), (lit (r"President"), []), (lit (r"Elder"), []),
     (lit (r"Sister"), []), (lit (r"Brother"), [])]
  DefaultAuthor := lit (r"General Authority")
  SubSectionThreshold := 100
  FallbackToBody := true
  Parallelism := 6
  DelaySeconds := 3
  SkipExtensions :=
    [lit (r".jpg"), lit (r".jpeg"), lit (r".png"), lit (r".gif"),
     lit (r".pdf"), lit (r".zip"), lit (r".mp3"), lit (r".mp4")]
  LinkReplace := []

/-- Profile for LDS Scripture pages
(src/collectors/types.go `GetScripturesConfig`). -/
def GetScripturesConfig : CollectorConfig where
  LinkSelector := lit (r"a[href].list-tile")
  LinkFilter := lit (r"illustrations")
  TitleSelector := lit (r"title")
  AuthorSelector := []
  ContentSelector := lit (r".body-block")
  RemoveSelectors :=
    [lit (r"script"), lit (r"footer"), lit (r"iframe"), lit (r"button"),
     lit (r".nav"), lit (r".menu"), lit (r".sidebar"), lit (r".ad"),
     lit (r".ads"), lit (r".study-notes"), lit (r".footnotes")]
  AuthorReplacements := []
  DefaultAuthor := []
  SubSectionThreshold := 50
  FallbackToBody := true
  Parallelism := 6
  DelaySeconds := 2
  SkipExtensions :=
    [lit (r".jpg"), lit (r".jpeg"), lit (r".png"), lit (r".gif"),
     lit (r".pdf"), lit (r".zip"), lit (r".mp3"), lit (r".mp4")]
  LinkReplace := []

/-- Profile for LDS Ensign magazine articles
(src/collectors/types.go `GetEnsignConfig`).  `LinkFilter` is left unset in
the source. -/
def GetEnsignConfig : CollectorConfig where
  LinkSelector := lit (r"a[href].title-link")
  LinkFilter := []
  TitleSelector := lit (r"title")
  AuthorSelector := lit (r".author-name")
  ContentSelector := lit (r"article")
  RemoveSelectors :=
    [lit (r"script"), lit (r"footer"), lit (r"iframe"), lit (r"button"),
     lit (r".nav"), lit (r".menu"), lit (r".sidebar"), lit (r".ad"),
     lit (r".ads"), lit (r".kicker")]
  AuthorReplacements := [(lit (r"By"), [])]
  DefaultAuthor := lit (r"Church Author")
  SubSectionThreshold := 200
  FallbackToBody := true
  Parallelism := 4
  DelaySeconds := 3
  SkipExtensions :=
    [lit (r".jpg"), lit (r".jpeg"), lit (r".png"), lit (r".gif"),
     lit (r".pdf"), lit (r".zip"), lit (r".mp3"), lit (r".mp4")]
  LinkReplace := []

/-- Module resolution (src/collectors/types.go `GetConfigByModule`): switch
on the lower-cased module name; unknown names produce the
`unknown module` error message.  A pure function: no side effects. -/
def GetConfigByModule (module : List Char) : Except (List Char) CollectorConfig :=
  if toLowerStr module = lit (r"conference") ∨
     toLowerStr module = lit (r"general-conference") then
    Except.ok GetGeneralConferenceConfig
  else if toLowerStr module = lit (r"scriptures") then
    Except.ok GetScripturesConfig
  else if toLowerStr module = lit (r"ensign") then
    Except.ok GetEnsignConfig
  else
    Except.error
      (lit (r"unknown module: ") ++ module ++
       lit (r". Available modules: conference, scriptures, ensign"))

/-- Link-rewrite step of `CollectLinks` (src/collectors/types.go lines
216-225): every rule's literal replacement is applied in declared order;
the flag is set when, after a rule marked `IsSubSection`, the accumulated
URL differs from the ORIGINAL pre-rewrite URL (`oldLink != link` in the
source compares against the saved original, not against the value before
this rule).  Returns the rewritten URL and the flag. -/
def rewriteStep (link0 : List Char) (acc : List Char × Bool)
    (r : LinkReplacement) : List Char × Bool :=
  (replaceAll acc.1 r.OldText r.NewText,
   acc.2 || (decide (link0 ≠ replaceAll acc.1 r.OldText r.NewText) &&
             r.IsSubSection))

/-- The rewrite fold over all rules, returning the rewritten URL and the
subsection flag (initially `false`). -/
def applyLinkReplace (rules : List LinkReplacement) (link0 : List Char) :
    List Char × Bool :=
  rules.foldl (rewriteStep link0) (link0, false)

/-- URL-only step of the rewrite fold. -/
def urlFoldStep (u : List Char) (r : LinkReplacement) : List Char :=
  replaceAll u r.OldText r.NewText

/-- The URL after applying a list of rewrite rules (the first component of
the rewrite fold). -/
def urlAfter (link0 : List Char) (rules : List LinkReplacement) : List Char :=
  rules.foldl urlFoldStep link0

/-- One candidate node matched by the link selector on the start page.  The
HTML/URL collaborators' answers are recorded as fields: the raw `href`
attribute (`none` when absent), whether `url.Parse` succeeds, whether the
parsed URL is absolute, the absolute URL string after
`ResolveReference` for a relative one, the resolved URL's hostname, and
`path.Ext` of the resolved URL's path. -/
structure Candidate where
  href : Option (List Char)
  parseOk : Bool
  isAbs : Bool
  resolved : List Char
  host : List Char
  ext : List Char
deriving DecidableEq

/-- Per-candidate body of the `Each` callback in `CollectLinks`
(src/collectors/types.go lines 185-237): each early `return` of the Go
callback keeps the state; a surviving link is appended with the running
`linkOrder`, which is then incremented. -/
def processCandidate (cfg : CollectorConfig) (sameHostOnly : Bool)
    (hostname : List Char) (st : List LinkInfo × Nat) (c : Candidate) :
    List LinkInfo × Nat :=
  match c.href with
  | none => st
  | some href =>
    if c.parseOk = false then st
    else
      let link := if c.isAbs then href else c.resolved
      if sameHostOnly && !(decide (c.host = hostname)) then st
      else if cfg.SkipExtensions.contains (toLowerStr c.ext) then st
      else
        let rewritten := applyLinkReplace cfg.LinkReplace link
        if !(containsSub rewritten.1 cfg.LinkFilter) then
          (st.1 ++ [⟨rewritten.1, st.2, rewritten.2⟩], st.2 + 1)
        else st

/-- The one page a discovery run visits, as answered by the collaborators:
whether `url.Parse` accepts the start URL, its hostname, the text of the
title-selector match, and the nodes matching the link selector in document
order. -/
structure StartPage where
  parseOk : Bool
  hostname : List Char
  titleText : List Char
  candidates : List Candidate
deriving DecidableEq

/-- Link discovery (src/collectors/types.go `CollectLinks`, lines 159-261):
parse the start URL, extract the book title (default when the selector
text is empty), fold the callback over the matched nodes in document
order, then truncate the result to links with `Order < 10`
(the `Truncate to 10 links for testing` block, lines 249-258). -/
def CollectLinks (page : StartPage) (cfg : CollectorConfig)
    (sameHostOnly : Bool) : Except (List Char) (List LinkInfo × List Char) :=
  if page.parseOk = false then Except.error (lit (r"invalid URL"))
  else
    let bookTitle :=
      if page.titleText = [] then lit (r"Default Title") else page.titleText
    let st := page.candidates.foldl
      (processCandidate cfg sameHostOnly page.hostname) ([], 0)
    let testLinksList := st.1.filter (fun l => l.Order < 10)
    Except.ok (testLinksList, bookTitle)

theorem rewriteFold_fst (link0 : List Char) :
    ∀ (rules : List LinkReplacement) (u : List Char) (b : Bool),
      (rules.foldl (rewriteStep link0) (u, b)).1 = rules.foldl urlFoldStep u := by
  intro rules
  induction rules with
  | nil => intro u b; rfl
  | cons r0 rest ih =>
      intro u b
      rw [List.foldl_cons, List.foldl_cons]
      exact ih _ _

theorem rewriteFold_flag (link0 : List Char) :
    ∀ (rules : List LinkReplacement) (u : List Char) (b : Bool),
      ((rules.foldl (rewriteStep link0) (u, b)).2 = true ↔
        b = true ∨ ∃ pre r suf, rules = pre ++ r :: suf ∧
          r.IsSubSection = true ∧
          link0 ≠ (pre ++ [r]).foldl urlFoldStep u) := by
  intro rules
  induction rules with
  | nil =>
      intro u b
      constructor
      · intro h; exact Or.inl h
      · rintro (h | ⟨pre, r, suf, habs, -, -⟩)
        · exact h
        · cases pre <;> simp at habs
  | cons r0 rest ih =>
      intro u b
      rw [List.foldl_cons, rewriteStep, ih]
      constructor
      · rintro (hb | ⟨pre, r, suf, heq, hsub, hne⟩)
        · have hb2 : b = true ∨
              (link0 ≠ replaceAll u r0.OldText r0.NewText ∧
               r0.IsSubSection = true) := by
            simpa [Bool.or_eq_true, Bool.and_eq_true, decide_eq_true_eq] using hb
          rcases hb2 with hb | ⟨hd, hs⟩
          · exact Or.inl hb
          · refine Or.inr ⟨[], r0, rest, rfl, hs, ?_⟩
            simpa [urlFoldStep] using hd
        · refine Or.inr ⟨r0 :: pre, r, suf, by rw [heq]; rfl, hsub, ?_⟩
          simpa [urlFoldStep, List.cons_append, List.foldl_cons] using hne
      · rintro (hb | ⟨pre, r, suf, heq, hsub, hne⟩)
        · exact Or.inl (by simp [hb])
        · cases pre with
          | nil =>
              simp only [List.nil_append] at heq hne
              obtain ⟨hr, hs⟩ := List.cons_eq_cons.mp heq
              subst hr
              refine Or.inl ?_
              have hne2 : link0 ≠ replaceAll u r0.OldText r0.NewText := by
                simpa [urlFoldStep] using hne
              simp [decide_eq_true hne2, hsub]
          | cons p pre2 =>
              simp only [List.cons_append] at heq
              obtain ⟨hp, hrest⟩ := List.cons_eq_cons.mp heq
              rw [← hp] at hne
              refine Or.inr ⟨pre2, r, suf, hrest, hsub, ?_⟩
              simpa [urlFoldStep, List.cons_append, List.foldl_cons] using hne

/-- C2 setting (corrected): the rewrite flag is set exactly when some rule
marked subsection is applied at a point where the ACCUMULATED url differs
from the original pre-rewrite url — the source compares `oldLink != link`
against the saved original, not against the value this rule received, so a
rule need not itself change the text to set the flag.  This theorem is the
amended claim. -/
theorem applyLinkReplace_flag_iff (rules : List LinkReplacement)
    (link0 : List Char) :
    ((applyLinkReplace rules link0).2 = true ↔
      ∃ pre r suf, rules = pre ++ r :: suf ∧ r.IsSubSection = true ∧
        link0 ≠ urlAfter link0 (pre ++ [r])) := by
  rw [applyLinkReplace, rewriteFold_flag]
  simp [urlAfter]

/-- Rule list for the C2 counterexample: first a non-subsection rule that
changes the url, then a subsection rule whose replacement does not occur in
the url. -/
def c2Rules : List LinkReplacement :=
  [⟨lit (r"a"), lit (r"x"), false⟩, ⟨lit (r"z"), lit (r"y"), true⟩]

/-- C2 counterexample: on url `ab`, the first rule rewrites to `xb`; the
second rule (marked subsection) performs a replacement that does NOT change
the text (`xb` has no `z`), yet the final subsection flag is `true` — the
claim asserts a rule whose replacement does not change the text never sets
the flag. -/
theorem c2_counterexample :
    replaceAll (lit (r"xb")) (lit (r"z")) (lit (r"y")) = lit (r"xb")
    ∧ (applyLinkReplace c2Rules (lit (r"ab"))).1 = lit (r"xb")
    ∧ (applyLinkReplace c2Rules (lit (r"ab"))).2 = true := by
  refine ⟨?_, ?_, ?_⟩ <;> decide

/-- A single callback step under an empty link filter never appends: every
string contains the empty substring, so the survival test fails. -/
theorem processCandidate_empty_filter (cfg : CollectorConfig) (sh : Bool)
    (host : List Char) (st : List LinkInfo × Nat) (c : Candidate)
    (hf : cfg.LinkFilter = []) : processCandidate cfg sh host st c = st := by
  rcases c with ⟨href, pOk, isAbs, res, chost, ext⟩
  cases href with
  | none => rfl
  | some href =>
      simp only [processCandidate, hf, containsSub_nil_pat, Bool.not_true]
      split
      · rfl
      · split
        · rfl
        · split
          · rfl
          · simp

theorem foldl_processCandidate_empty_filter (cfg : CollectorConfig)
    (sh : Bool) (host : List Char) (hf : cfg.LinkFilter = []) :
    ∀ (cands : List Candidate) (st : List LinkInfo × Nat),
      cands.foldl (processCandidate cfg sh host) st = st := by
  intro cands
  induction cands with
  | nil => intro st; rfl
  | cons c rest ih =>
      intro st
      rw [List.foldl_cons, processCandidate_empty_filter cfg sh host st c hf]
      exact ih st

/-- C3 (confirmed): with an empty link filter — as in the conference and
ensign profiles, which leave `LinkFilter` unset — `CollectLinks` never
appends a link, because `strings.Contains url emptyString` is true for
every url, so the discovery result is always the empty list. -/
theorem collectLinks_empty_filter_returns_nil (page : StartPage)
    (cfg : CollectorConfig) (sh : Bool) (ls : List LinkInfo) (t : List Char)
    (hf : cfg.LinkFilter = [])
    (h : CollectLinks page cfg sh = Except.ok (ls, t)) : ls = [] := by
  rw [CollectLinks] at h
  split at h
  · exact absurd h (by simp)
  · rw [foldl_processCandidate_empty_filter cfg sh page.hostname hf] at h
    have := (Except.ok.inj h)
    have h1 : (([] : List LinkInfo), (0 : Nat)).1.filter (fun l => l.Order < 10) = ls :=
      congrArg Prod.fst this
    simpa using h1.symm

/-- One callback step preserves the invariant that every collected link's
URL fails the `strings.Contains` test against the link filter: the only
branch that appends guards the new entry with exactly that test. -/
theorem processCandidate_filter_inv (cfg : CollectorConfig) (sh : Bool)
    (host : List Char) (st : List LinkInfo × Nat) (c : Candidate)
    (h : ∀ l ∈ st.1, containsSub l.URL cfg.LinkFilter = false) :
    ∀ l ∈ (processCandidate cfg sh host st c).1,
      containsSub l.URL cfg.LinkFilter = false := by
  intro l hl
  rcases c with ⟨href, pOk, isAbs, res, chost, ext⟩
  cases href with
  | none => exact h l hl
  | some href =>
      simp only [processCandidate] at hl
      split_ifs at hl
      all_goals first
        | exact h l hl
        | (rcases List.mem_append.mp hl with hmem | hmem <;> first
            | exact h l hmem
            | (rw [List.mem_singleton.mp hmem]; simp_all))

theorem foldl_processCandidate_filter_inv (cfg : CollectorConfig)
    (sh : Bool) (host : List Char) :
    ∀ (cands : List Candidate) (st : List LinkInfo × Nat),
      (∀ l ∈ st.1, containsSub l.URL cfg.LinkFilter = false) →
      ∀ l ∈ (cands.foldl (processCandidate cfg sh host) st).1,
        containsSub l.URL cfg.LinkFilter = false := by
  intro cands
  induction cands with
  | nil => intro st h; exact h
  | cons c rest ih =>
      intro st h
      rw [List.foldl_cons]
      exact ih _ (processCandidate_filter_inv cfg sh host st c h)

/-- C8 (confirmed): a link whose post-rewrite URL contains the profile's
link-filter substring is never present in the discovery output, whatever
rewrite rules were applied — every link `CollectLinks` returns fails the
containment test. -/
theorem collectLinks_filter_absent (page : StartPage)
    (cfg : CollectorConfig) (sh : Bool) (ls : List LinkInfo) (t : List Char)
    (h : CollectLinks page cfg sh = Except.ok (ls, t)) :
    ∀ l ∈ ls, containsSub l.URL cfg.LinkFilter = false := by
  intro l hl
  rw [CollectLinks] at h
  split at h
  · exact absurd h (by simp)
  · have hpair := Except.ok.inj h
    have hls : (page.candidates.foldl
        (processCandidate cfg sh page.hostname) ([], 0)).1.filter
          (fun l => l.Order < 10) = ls :=
      congrArg Prod.fst hpair
    rw [← hls] at hl
    exact foldl_processCandidate_filter_inv cfg sh page.hostname
      page.candidates ([], 0) (by intro x hx; simp at hx) l
      (List.mem_of_mem_filter hl)

/-- A candidate with an absolute, parseable, same-host href, no extension;
used by the concrete discovery runs below. -/
def mkCand (u : List Char) : Candidate :=
  ⟨some u, true, true, [], lit (r"h"), []⟩

/-- A start page carrying eleven matching candidates, numbered 0-10. -/
def page11 : StartPage :=
  ⟨true, lit (r"h"), [], (List.range 11).map (fun i => mkCand (Nat.toDigits 10 i))⟩

/-- C1 (code bug): on a start page with eleven surviving links the callback
collects all eleven, with `linkOrder` reaching 11 — but the `Truncate to 10
links for testing` block (src/collectors/types.go lines 249-258) drops the
eleventh, so `CollectLinks` returns only ten links, against both the spec
and the function's own doc comment (`discovers and returns all links`). -/
theorem collectLinks_truncates_eleventh_link :
    ((page11.candidates.foldl
        (processCandidate GetScripturesConfig true page11.hostname)
        ([], 0)).1.length = 11
     ∧ (page11.candidates.foldl
        (processCandidate GetScripturesConfig true page11.hostname)
        ([], 0)).2 = 11)
    ∧ (CollectLinks page11 GetScripturesConfig true).toOption.map
        (fun p => p.1.length) = some 10 := by
  refine ⟨⟨?_, ?_⟩, ?_⟩ <;> decide

/-- Extracted page (src/collectors/types.go `PageContent`).  The opaque
rich-content handle is modelled by the body's visible text, which is all
the repository's own logic reads from it (`len(article.Text())`). -/
structure PageContent where
  URL : List Char
  Title : List Char
  Author : List Char
  Content : List Char
  Order : Nat
  IsSubSection : Bool
deriving DecidableEq

/-- One fetched document, as answered by the collaborators: its request
URL, the text of the title- and author-selector matches, the cleaned text
of the content-selector match (`none` when the selector matched zero
nodes), and the cleaned body text used by the fallback. -/
structure Doc where
  url : List Char
  titleText : List Char
  authorText : List Char
  contentText : Option (List Char)
  bodyText : List Char
deriving DecidableEq

/-- Order recovery in the page callback (src/collectors/page_collector.go
lines 34-41): linear scan of the discovered links for the first exact URL
match, `break` on hit, zero-value default when no link matches. -/
def findOrder : List LinkInfo → List Char → Nat
  | [], _ => 0
  | l :: rest, u => if l.URL = u then l.Order else findOrder rest u

/-- Author clean-up loop (src/collectors/page_collector.go lines 54-57):
every (old, new) pair of the profile's table applied as a literal
substring replacement. -/
def applyAuthorReplacements (table : List (List Char × List Char))
    (s : List Char) : List Char :=
  table.foldl (fun acc pr => replaceAll acc pr.1 pr.2) s

/-- Body selection of the page callback (src/collectors/page_collector.go
lines 61-83): the content-selector match if it has at least one node, else
the whole-document body when fallback is enabled, else no body at all (the
callback returns without storing). -/
def articleText (cfg : CollectorConfig) (doc : Doc) : Option (List Char) :=
  match doc.contentText with
  | some t => some t
  | none => if cfg.FallbackToBody then some doc.bodyText else none

/-- Per-document callback of `CollectPages`
(src/collectors/page_collector.go lines 31-118): recover the order, build
title (with `Page N` fallback), author (default or replacement table plus
trim), select the body, and mark the page as a subsection unless the
cleaned body text is shorter than the profile threshold.  Returns `none`
exactly when the callback returns without storing a page. -/
def processPage (cfg : CollectorConfig) (links : List LinkInfo) (doc : Doc) :
    Option PageContent :=
  let pageOrder := findOrder links doc.url
  let title :=
    if doc.titleText = [] then
      lit (r"Page ") ++ Nat.toDigits 10 (pageOrder + 1)
    else doc.titleText
  let author :=
    if doc.authorText = [] then cfg.DefaultAuthor
    else trimSpace (applyAuthorReplacements cfg.AuthorReplacements doc.authorText)
  match articleText cfg doc with
  | none => none
  | some article =>
      some ⟨doc.url, title, author, article, pageOrder,
            !(decide (article.length < cfg.SubSectionThreshold))⟩

/-- Go map write `pages[pageURL] = ...`: replace the entry with the same
key, else append. -/
def updateAssoc (m : List (List Char × PageContent)) (k : List Char)
    (v : PageContent) : List (List Char × PageContent) :=
  match m with
  | [] => [(k, v)]
  | (k2, v2) :: rest =>
      if k2 = k then (k, v) :: rest else (k2, v2) :: updateAssoc rest k v

/-- Visit loop of `CollectPages` (src/collectors/page_collector.go lines
127-132 with the callbacks above): each link is fetched; a fetch error only
logs (`OnError`) and the loop continues; a fetched document is processed
and stored under its request URL when the callback produces a page.  The
fetch collaborator is the `fetch` oracle; concurrent completions write
distinct map keys, so the mapping is modelled by processing in queue
order. -/
def pagesLoop (fetch : List Char → Option Doc) (cfg : CollectorConfig)
    (allLinks : List LinkInfo) :
    List (List Char × PageContent) → List LinkInfo →
    List (List Char × PageContent)
  | m, [] => m
  | m, l :: rest =>
      match fetch l.URL with
      | none => pagesLoop fetch cfg allLinks m rest
      | some doc =>
          match processPage cfg allLinks doc with
          | none => pagesLoop fetch cfg allLinks m rest
          | some p => pagesLoop fetch cfg allLinks (updateAssoc m doc.url p) rest

/-- Page extraction (src/collectors/page_collector.go `CollectPages`):
process every discovered link, starting from the empty mapping. -/
def CollectPages (fetch : List Char → Option Doc) (cfg : CollectorConfig)
    (links : List LinkInfo) : List (List Char × PageContent) :=
  pagesLoop fetch cfg links [] links

/-- Shape of a stored page: its body is the selected article text and its
flag is exactly the threshold comparison on that text's length. -/
theorem processPage_shape (cfg : CollectorConfig) (links : List LinkInfo)
    (doc : Doc) (p : PageContent) (h : processPage cfg links doc = some p) :
    articleText cfg doc = some p.Content ∧
    p.IsSubSection = !(decide (p.Content.length < cfg.SubSectionThreshold)) := by
  simp only [processPage] at h
  cases ha : articleText cfg doc with
  | none => rw [ha] at h; exact absurd h (by simp)
  | some a =>
      rw [ha] at h
      have hp := Option.some.inj h
      rw [← hp]
      exact ⟨rfl, rfl⟩

/-- C4 (confirmed): a page stored by the extraction callback has
`IsSubSection = false` iff the cleaned body text length is strictly below
the profile threshold, and the flag is a function of the document alone —
it is never copied from the discovered links' rewrite-based subsection
flags (any link list yields the same flag). -/
theorem processPage_subsection_iff (cfg : CollectorConfig)
    (links : List LinkInfo) (doc : Doc) (p : PageContent)
    (h : processPage cfg links doc = some p) :
    (p.IsSubSection = false ↔
      p.Content.length < cfg.SubSectionThreshold)
    ∧ ∀ (links2 : List LinkInfo) (p2 : PageContent),
        processPage cfg links2 doc = some p2 →
        p2.IsSubSection = p.IsSubSection := by
  obtain ⟨ha, hflag⟩ := processPage_shape cfg links doc p h
  constructor
  · rw [hflag]; simp
  · intro links2 p2 h2
    obtain ⟨ha2, hflag2⟩ := processPage_shape cfg links2 doc p2 h2
    have hc : p2.Content = p.Content := by
      rw [ha] at ha2
      exact (Option.some.inj ha2).symm
    rw [hflag, hflag2, hc]

/-- C7 (confirmed): a link whose fetch fails, or whose document has no
content-selector match while fallback is disabled, contributes no entry to
the mapping, and the loop processes the remaining links exactly as if the
failed link were absent. -/
theorem pagesLoop_skips_failed_link (fetch : List Char → Option Doc)
    (cfg : CollectorConfig) (allLinks : List LinkInfo)
    (m : List (List Char × PageContent)) (l : LinkInfo)
    (rest : List LinkInfo)
    (h : fetch l.URL = none ∨
      (cfg.FallbackToBody = false ∧
        ∃ doc, fetch l.URL = some doc ∧ doc.contentText = none)) :
    pagesLoop fetch cfg allLinks m (l :: rest) =
      pagesLoop fetch cfg allLinks m rest := by
  rcases h with h | ⟨hf, doc, hd, hc⟩
  · simp [pagesLoop, h]
  · simp [pagesLoop, hd, processPage, articleText, hc, hf]

/-- A string in which no table key occurs is a fixed point of the whole
replacement table. -/
theorem applyAuthorReplacements_fixed_point
    (table : List (List Char × List Char)) :
    ∀ (t : List Char), (∀ pr ∈ table, containsSub t pr.1 = false) →
      applyAuthorReplacements table t = t := by
  induction table with
  | nil => intro t _; rfl
  | cons pr rest ih =>
      intro t h
      have h0 : containsSub t pr.1 = false := h pr (by simp)
      simp only [applyAuthorReplacements, List.foldl_cons,
        replaceAll_of_not_contains t pr.1 pr.2 h0]
      exact ih t (fun q hq => h q (by simp [hq]))

/-- C9 (confirmed): when the replacement table is a fixed point on the
input — after one full pass no old key occurs in the result, the
"no old key in any replacement result, no overlapping old/new collisions"
condition — applying the author-replacement table twice equals applying it
once. -/
theorem applyAuthorReplacements_idempotent
    (table : List (List Char × List Char)) (s : List Char)
    (h : ∀ pr ∈ table,
      containsSub (applyAuthorReplacements table s) pr.1 = false) :
    applyAuthorReplacements table (applyAuthorReplacements table s) =
      applyAuthorReplacements table s :=
  applyAuthorReplacements_fixed_point table (applyAuthorReplacements table s) h

/-- One entry of the e-book writer's table of contents: the
container-internal reference returned by `AddSection`, the display title,
and the display titles of the children attached under it. -/
structure EpubSection where
  ref : List Char
  title : List Char
  children : List (List Char)
deriving DecidableEq

/-- Collaborator model of the container-internal relative path the writer
returns for the n-th added top-level section. -/
def sectionRef (n : Nat) : List Char := lit (r"section") ++ Nat.toDigits 10 n

/-- Writer collaborator `book.AddSection`: append a new childless
top-level section and return its internal reference. -/
def AddSection (book : List EpubSection) (title : List Char) :
    List EpubSection × List Char :=
  (book ++ [⟨sectionRef book.length, title, []⟩], sectionRef book.length)

/-- Writer collaborator `book.AddSubSection`: attach a child to the
section whose handle matches the given parent reference. -/
def AddSubSection (book : List EpubSection) (parent : List Char)
    (title : List Char) : List EpubSection :=
  book.map (fun s =>
    if s.ref = parent then ⟨s.ref, s.title, s.children ++ [title]⟩ else s)

/-- Display title of a page in the final book (src/main.go line 141,
`"%s - %s"` of title and author). -/
def displayTitle (p : PageContent) : List Char :=
  p.Title ++ lit (r" - ") ++ p.Author

/-- Assembly loop state: the book under construction and the
`SectionLink` anchor (src/main.go line 110, initially the empty string). -/
structure AssemblyState where
  book : List EpubSection
  SectionLink : List Char
deriving DecidableEq

/-- One iteration of the assembly loop (src/main.go lines 113-159): a
subsection is attached under the current anchor and the anchor is kept; a
section is appended at top level and the anchor becomes its reference. -/
def assembleStep (st : AssemblyState) (p : PageContent) : AssemblyState :=
  if p.IsSubSection then
    ⟨AddSubSection st.book st.SectionLink (displayTitle p), st.SectionLink⟩
  else
    ⟨(AddSection st.book (displayTitle p)).1,
     (AddSection st.book (displayTitle p)).2⟩

/-- Assembly of the dense page sequence (src/main.go lines 110-159). -/
def assemblePages (pages : List PageContent) : AssemblyState :=
  pages.foldl assembleStep ⟨[], []⟩

theorem assemble_subsections_attach (r0 t0 : List Char) :
    ∀ (rest : List PageContent) (cs : List (List Char)),
      (∀ p ∈ rest, p.IsSubSection = true) →
      rest.foldl assembleStep ⟨[⟨r0, t0, cs⟩], r0⟩ =
        ⟨[⟨r0, t0, cs ++ rest.map displayTitle⟩], r0⟩ := by
  intro rest
  induction rest with
  | nil => intro cs _; simp
  | cons p rest2 ih =>
      intro cs h
      have hp : p.IsSubSection = true := h p (by simp)
      rw [List.foldl_cons]
      have hstep : assembleStep ⟨[⟨r0, t0, cs⟩], r0⟩ p =
          ⟨[⟨r0, t0, cs ++ [displayTitle p]⟩], r0⟩ := by
        simp [assembleStep, hp, AddSubSection]
      rw [hstep, ih (cs ++ [displayTitle p]) (fun q hq => h q (by simp [hq]))]
      simp

/-- C5 (confirmed): assembling a dense sequence whose first page is a
section and whose remaining pages are all subsections yields exactly one
top-level section, titled with the first page's `title - author` display
title, carrying the other pages as children in order; a subsection step
never changes the anchor and a section step always sets it to the new
section's reference. -/
theorem assemble_single_section_with_children (p0 : PageContent)
    (rest : List PageContent) (h0 : p0.IsSubSection = false)
    (hrest : ∀ p ∈ rest, p.IsSubSection = true) :
    (assemblePages (p0 :: rest) =
      ⟨[⟨sectionRef 0, displayTitle p0, rest.map displayTitle⟩], sectionRef 0⟩)
    ∧ (∀ (st : AssemblyState) (p : PageContent), p.IsSubSection = true →
        (assembleStep st p).SectionLink = st.SectionLink)
    ∧ (∀ (st : AssemblyState) (p : PageContent), p.IsSubSection = false →
        (assembleStep st p).SectionLink = sectionRef st.book.length) := by
  refine ⟨?_, ?_, ?_⟩
  · rw [assemblePages, List.foldl_cons]
    have hstep : assembleStep ⟨[], []⟩ p0 =
        ⟨[⟨sectionRef 0, displayTitle p0, []⟩], sectionRef 0⟩ := by
      simp [assembleStep, h0, AddSection]
    rw [hstep]
    simpa using assemble_subsections_attach (sectionRef 0) (displayTitle p0)
      rest [] hrest
  · intro st p hp; simp [assembleStep, hp]
  · intro st p hp; simp [assembleStep, hp, AddSection]

/-- Dense placement loop (src/main.go lines 103-108): write each page at
index `page.Order` of an array of `len(pages)` nil slots.  An order at or
beyond the array length is an out-of-range write — a runtime panic in Go —
modelled as `none`. -/
def placeLoop : List PageContent → List (Option PageContent) →
    Option (List (Option PageContent))
  | [], arr => some arr
  | p :: rest, arr =>
      if p.Order < arr.length then placeLoop rest (arr.set p.Order (some p))
      else none

/-- Dense sequence construction (src/main.go lines 102-108,
`sortedPages := make([]*PageContent, len(pages))` then the placement
loop). -/
def sortedPagesOf (pages : List PageContent) :
    Option (List (Option PageContent)) :=
  placeLoop pages (List.replicate pages.length none)

theorem placeLoop_within_bounds :
    ∀ (pages : List PageContent) (arr : List (Option PageContent)),
      (∀ p ∈ pages, p.Order < arr.length) →
      ∃ arr2, placeLoop pages arr = some arr2 ∧ arr2.length = arr.length ∧
        ∀ j, j < arr.length →
          ((∀ p ∈ pages, p.Order ≠ j) → arr2[j]? = arr[j]?) ∧
          ((∃ p ∈ pages, p.Order = j) → ∃ q, arr2[j]? = some (some q)) := by
  intro pages
  induction pages with
  | nil =>
      intro arr _
      refine ⟨arr, rfl, rfl, fun j _ => ⟨fun _ => rfl, ?_⟩⟩
      rintro ⟨p, hp, -⟩
      simp at hp
  | cons p rest ih =>
      intro arr h
      have hp : p.Order < arr.length := h p (by simp)
      have hrest : ∀ q ∈ rest, q.Order < (arr.set p.Order (some p)).length := by
        intro q hq
        rw [List.length_set]
        exact h q (by simp [hq])
      obtain ⟨arr2, heq, hlen2, hj⟩ := ih (arr.set p.Order (some p)) hrest
      refine ⟨arr2, by simp [placeLoop, hp, heq], by rw [hlen2, List.length_set], ?_⟩
      intro j hjlt
      have hjlt2 : j < (arr.set p.Order (some p)).length := by
        rw [List.length_set]; exact hjlt
      obtain ⟨hnone, hsome⟩ := hj j hjlt2
      constructor
      · intro hall
        have hpj : p.Order ≠ j := hall p (by simp)
        rw [hnone (fun q hq => hall q (by simp [hq]))]
        exact List.getElem?_set_ne hpj
      · rintro ⟨q, hq, hqj⟩
        rcases List.mem_cons.mp hq with hq1 | hq2
        · subst hq1
          by_cases hex : ∃ r ∈ rest, r.Order = j
          · exact hsome hex
          · push_neg at hex
            rw [hnone (fun r hr => hex r hr), ← hqj]
            exact ⟨q, List.getElem?_set_eq_of_lt (some q) hp⟩
        · exact hsome ⟨q, hq2, hqj⟩

theorem placeLoop_out_of_bounds :
    ∀ (pages : List PageContent) (arr : List (Option PageContent)),
      (∃ p ∈ pages, arr.length ≤ p.Order) → placeLoop pages arr = none := by
  intro pages
  induction pages with
  | nil =>
      rintro arr ⟨p, hp, -⟩
      simp at hp
  | cons p rest ih =>
      rintro arr ⟨q, hq, hqo⟩
      rcases List.mem_cons.mp hq with hq1 | hq2
      · subst hq1
        have hng : ¬ q.Order < arr.length := by omega
        simp [placeLoop, hng]
      · by_cases hp : p.Order < arr.length
        · rw [placeLoop, if_pos hp]
          exact ih _ ⟨q, hq2, by rw [List.length_set]; exact hqo⟩
        · simp [placeLoop, hp]

/-- C6 (confirmed): if the order values of the N pages are exactly
`0..N-1`, every placement write is in bounds and the dense sequence has no
nil entry; a page whose order reaches the page count makes the placement
write out of range (a Go panic, modelled `none`); and an order value never
hit below the count leaves a nil page at that index. -/
theorem densePlacement_props (pages : List PageContent) :
    (((∀ p ∈ pages, p.Order < pages.length) ∧
      (∀ j, j < pages.length → ∃ p ∈ pages, p.Order = j)) →
      ∃ arr, sortedPagesOf pages = some arr ∧ arr.length = pages.length ∧
        ∀ j, j < pages.length → ∃ q, arr[j]? = some (some q))
    ∧ ((∃ p ∈ pages, pages.length ≤ p.Order) → sortedPagesOf pages = none)
    ∧ ((∀ p ∈ pages, p.Order < pages.length) →
        ∀ j, j < pages.length → (∀ p ∈ pages, p.Order ≠ j) →
          ∃ arr, sortedPagesOf pages = some arr ∧ arr[j]? = some none) := by
  have hlenrep : (List.replicate pages.length (none : Option PageContent)).length
      = pages.length := List.length_replicate pages.length none
  refine ⟨?_, ?_, ?_⟩
  · rintro ⟨hb, hcover⟩
    obtain ⟨arr2, heq, hlen2, hj⟩ :=
      placeLoop_within_bounds pages (List.replicate pages.length none)
        (by rw [hlenrep]; exact hb)
    refine ⟨arr2, heq, by rw [hlen2, hlenrep], ?_⟩
    intro j hjlt
    exact (hj j (by rw [hlenrep]; exact hjlt)).2 (hcover j hjlt)
  · rintro ⟨p, hp, hpo⟩
    exact placeLoop_out_of_bounds pages _ ⟨p, hp, by rw [hlenrep]; exact hpo⟩
  · intro hb j hjlt hmiss
    obtain ⟨arr2, heq, hlen2, hj⟩ :=
      placeLoop_within_bounds pages (List.replicate pages.length none)
        (by rw [hlenrep]; exact hb)
    refine ⟨arr2, heq, ?_⟩
    rw [(hj j (by rw [hlenrep]; exact hjlt)).1 hmiss]
    simp [List.getElem?_replicate, hjlt]

/-- C10 (confirmed): module resolution is case-insensitive and total —
the three known profiles (with `conference` and `general-conference`
synonymous) are returned without error for any letter case, and every
other name yields the `unknown module` error naming the valid set.
`GetConfigByModule` is a pure function: no side effects. -/
theorem getConfigByModule_cases (m : List Char) :
    ((toLowerStr m = lit (r"conference") ∨
      toLowerStr m = lit (r"general-conference")) →
      GetConfigByModule m = Except.ok GetGeneralConferenceConfig)
    ∧ (toLowerStr m = lit (r"scriptures") →
      GetConfigByModule m = Except.ok GetScripturesConfig)
    ∧ (toLowerStr m = lit (r"ensign") →
      GetConfigByModule m = Except.ok GetEnsignConfig)
    ∧ ((toLowerStr m ≠ lit (r"conference") ∧
        toLowerStr m ≠ lit (r"general-conference") ∧
        toLowerStr m ≠ lit (r"scriptures") ∧
        toLowerStr m ≠ lit (r"ensign")) →
      GetConfigByModule m = Except.error
        (lit (r"unknown module: ") ++ m ++
         lit (r". Available modules: conference, scriptures, ensign"))) := by
  refine ⟨?_, ?_, ?_, ?_⟩
  · intro h
    rw [GetConfigByModule, if_pos h]
  · intro h
    have h1 : ¬(toLowerStr m = lit (r"conference") ∨
        toLowerStr m = lit (r"general-conference")) := by
      rw [h]; decide
    rw [GetConfigByModule, if_neg h1, if_pos h]
  · intro h
    have h1 : ¬(toLowerStr m = lit (r"conference") ∨
        toLowerStr m = lit (r"general-conference")) := by
      rw [h]; decide
    have h2 : toLowerStr m ≠ lit (r"scriptures") := by
      rw [h]; decide
    rw [GetConfigByModule, if_neg h1, if_neg h2, if_pos h]
  · rintro ⟨h1, h2, h3, h4⟩
    rw [GetConfigByModule, if_neg (not_or.mpr ⟨h1, h2⟩), if_neg h3, if_neg h4]

-- Concrete fixtures for the witness instances.

/-- A one-candidate start page with title text `T`. -/
def page1 : StartPage := ⟨true, lit (r"h"), lit (r"T"), [mkCand (lit (r"u"))]⟩

/-- A fetched document whose content selector matched, with a 4-character
body. -/
def docC4 : Doc := ⟨lit (r"u"), lit (r"T"), [], some (lit (r"body")), []⟩

/-- The page the extraction callback stores for `docC4` under the
conference profile. -/
def pC4 : PageContent :=
  ⟨lit (r"u"), lit (r"T"), lit (r"General Authority"), lit (r"body"), 0, false⟩

/-- A top-level section page. -/
def pA : PageContent :=
  ⟨lit (r"u1"), lit (r"T1"), lit (r"A1"), lit (r"x"), 0, false⟩

/-- A subsection page. -/
def pB : PageContent :=
  ⟨lit (r"u2"), lit (r"T2"), lit (r"A2"), lit (r"y"), 1, true⟩

/-- Two pages with orders exactly 0 and 1. -/
def pagesC6 : List PageContent := [pA, pB]

/-- A fetch oracle for which every visit fails. -/
def fetchNone : List Char → Option Doc := fun _ => none

/-- A discovered link whose fetch fails under `fetchNone`. -/
def linkBad : LinkInfo := ⟨lit (r"bad"), 0, false⟩

theorem collectLinks_empty_filter_returns_nil_witness :
    GetGeneralConferenceConfig.LinkFilter = []
    ∧ CollectLinks page11 GetGeneralConferenceConfig true =
        Except.ok (([] : List LinkInfo), lit (r"Default Title"))
    ∧ ([] : List LinkInfo) = [] :=
  ⟨rfl, rfl,
   collectLinks_empty_filter_returns_nil page11 GetGeneralConferenceConfig
     true [] (lit (r"Default Title")) rfl rfl⟩

theorem collectLinks_filter_absent_witness :
    containsSub (lit (r"u")) GetScripturesConfig.LinkFilter = false :=
  collectLinks_filter_absent page1 GetScripturesConfig true
    [⟨lit (r"u"), 0, false⟩] (lit (r"T")) rfl
    ⟨lit (r"u"), 0, false⟩ (by decide)

theorem processPage_subsection_iff_witness :
    (pC4.IsSubSection = false ↔
      pC4.Content.length < GetGeneralConferenceConfig.SubSectionThreshold) :=
  (processPage_subsection_iff GetGeneralConferenceConfig [] docC4 pC4 rfl).1

theorem assemble_single_section_with_children_witness :
    assemblePages [pA, pB] =
      ⟨[⟨sectionRef 0, displayTitle pA, List.map displayTitle [pB]⟩],
       sectionRef 0⟩ :=
  (assemble_single_section_with_children pA [pB] rfl (by decide)).1

theorem densePlacement_props_witness :
    ((∀ p ∈ pagesC6, p.Order < pagesC6.length) ∧
      (∀ j, j < pagesC6.length → ∃ p ∈ pagesC6, p.Order = j))
    ∧ ∃ arr, sortedPagesOf pagesC6 = some arr ∧
        arr.length = pagesC6.length ∧
        ∀ j, j < pagesC6.length → ∃ q, arr[j]? = some (some q) :=
  ⟨⟨by decide, by decide⟩,
   (densePlacement_props pagesC6).1 ⟨by decide, by decide⟩⟩

theorem pagesLoop_skips_failed_link_witness :
    pagesLoop fetchNone GetGeneralConferenceConfig [linkBad] [] [linkBad] =
      pagesLoop fetchNone GetGeneralConferenceConfig [linkBad] [] [] :=
  pagesLoop_skips_failed_link fetchNone GetGeneralConferenceConfig [linkBad]
    [] linkBad [] (Or.inl rfl)

theorem applyAuthorReplacements_idempotent_witness :
    (∀ pr ∈ GetGeneralConferenceConfig.AuthorReplacements,
      containsSub
        (applyAuthorReplacements GetGeneralConferenceConfig.AuthorReplacements
          (lit (r"By A"))) pr.1 = false)
    ∧ applyAuthorReplacements GetGeneralConferenceConfig.AuthorReplacements
        (applyAuthorReplacements GetGeneralConferenceConfig.AuthorReplacements
          (lit (r"By A"))) =
      applyAuthorReplacements GetGeneralConferenceConfig.AuthorReplacements
        (lit (r"By A")) :=
  ⟨by decide,
   applyAuthorReplacements_idempotent
     GetGeneralConferenceConfig.AuthorReplacements (lit (r"By A")) (by decide)⟩

theorem getConfigByModule_cases_witness :
    GetConfigByModule (lit (r"CoNfErEnCe")) =
      Except.ok GetGeneralConferenceConfig :=
  (getConfigByModule_cases (lit (r"CoNfErEnCe"))).1 (Or.inl (by decide))
